import Mathlib

/-!
Shallow embedding of the simulation core of SwarmHeaven (src/main.rs).

Modelling conventions, fixed once for the whole file:

* The engine's `f32` arithmetic is embedded as exact rational arithmetic
  over `ℚ`.
* Every gameplay entity lives at the same z coordinate (the controlled
  entity spawns at z = 10 and all hostiles, projectiles, blades and
  pickups derive their z from it with zero offset), so translations are
  embedded as 2D vectors.
* The source compares Euclidean distances against positive radii
  (`a.distance(b) < r`); these comparisons are embedded through squared
  distances (`dist2 a b < r ^ 2`), which is equivalent because both sides
  of the source comparison are nonnegative.  Where a system needs the
  distance itself (normalisation in `enemy_movement` and `boid_steering`)
  the embedding takes the distance `d` as an explicit argument and the
  theorems carry the certificate `0 ≤ d ∧ d * d = dist2 a b`, which pins
  `d` down uniquely as the Euclidean distance.
* Entity ids are `ℕ`; Bevy's deferred `Commands` mean a system never sees
  despawns issued earlier in the same tick, so each embedded pass receives
  the full entity lists of the tick and returns the despawn/emission lists
  it would queue.
-/

namespace SwarmHeaven

/-- Planar position vector over exact rationals (see the file header for
why 2D and ℚ are faithful to the source's `Vec3` of `f32`). -/
structure Vec2 where
  x : ℚ
  y : ℚ
deriving DecidableEq, Repr

instance : Add Vec2 := ⟨fun a b => ⟨a.x + b.x, a.y + b.y⟩⟩

instance : Sub Vec2 := ⟨fun a b => ⟨a.x - b.x, a.y - b.y⟩⟩

instance : SMul ℚ Vec2 := ⟨fun c v => ⟨c * v.x, c * v.y⟩⟩

@[simp] theorem Vec2.add_x (a b : Vec2) : (a + b).x = a.x + b.x := rfl

@[simp] theorem Vec2.add_y (a b : Vec2) : (a + b).y = a.y + b.y := rfl

@[simp] theorem Vec2.sub_x (a b : Vec2) : (a - b).x = a.x - b.x := rfl

@[simp] theorem Vec2.sub_y (a b : Vec2) : (a - b).y = a.y - b.y := rfl

@[simp] theorem Vec2.smul_x (c : ℚ) (v : Vec2) : (c • v).x = c * v.x := rfl

@[simp] theorem Vec2.smul_y (c : ℚ) (v : Vec2) : (c • v).y = c * v.y := rfl

/-- Squared Euclidean distance between two positions. -/
def dist2 (a b : Vec2) : ℚ := (a.x - b.x) ^ 2 + (a.y - b.y) ^ 2

/-- Squared Euclidean norm of a vector. -/
def norm2 (v : Vec2) : ℚ := v.x ^ 2 + v.y ^ 2

theorem dist2_nonneg (a b : Vec2) : 0 ≤ dist2 a b := by
  have hx := sq_nonneg (a.x - b.x)
  have hy := sq_nonneg (a.y - b.y)
  unfold dist2; linarith

theorem dist2_eq_zero_iff (a b : Vec2) : dist2 a b = 0 ↔ a = b := by
  unfold dist2
  constructor
  · intro h
    have hx := sq_nonneg (a.x - b.x)
    have hy := sq_nonneg (a.y - b.y)
    have hx0 : (a.x - b.x) ^ 2 = 0 := by linarith
    have hy0 : (a.y - b.y) ^ 2 = 0 := by linarith
    have hax : a.x = b.x := by
      have := pow_eq_zero_iff (n := 2) (by norm_num) |>.mp hx0
      linarith [sub_eq_zero.mp this]
    have hay : a.y = b.y := by
      have := pow_eq_zero_iff (n := 2) (by norm_num) |>.mp hy0
      linarith [sub_eq_zero.mp this]
    cases a; cases b; simp_all
  · intro h; subst h; ring

theorem norm2_sub_eq_dist2 (a b : Vec2) : norm2 (a - b) = dist2 a b := by
  simp [norm2, dist2]

theorem Vec2.ext_xy (a b : Vec2) (hx : a.x = b.x) (hy : a.y = b.y) : a = b := by
  cases a; cases b; simp_all

-- Game constants (src/main.rs lines 10-17).

def PLAYER_SIZE : ℚ := 30

def ENEMY_SIZE : ℚ := 20

def ENEMY_SPEED : ℚ := 200

def ENEMY_SPAWN_INTERVAL : ℚ := 1 / 10

/-- Simulation states of the `GameState` enum. -/
inductive GameState where
  | MainMenu
  | Running
  | Paused
deriving DecidableEq, Repr

-- ------------------------------------------------------------------
-- Leveling subsystem (mod leveling)
-- ------------------------------------------------------------------

/-- The `PlayerStats` resource. -/
structure PlayerStats where
  xp : ℕ
  level : ℕ
  xp_to_next_level : ℕ
deriving DecidableEq, Repr

/-- Embedding of `leveling::check_level_up` (src/main.rs lines 637-647).
The system runs once per tick; it is a single `if`, not a loop.  The cast
chain `(x as f32 * 1.5) as u32` is embedded as the exact floor
`3 * x / 2` in ℕ (`1.5` is exactly representable and the `as u32` cast
truncates).  The `NextState<GameState>` resource is the `Option GameState`
component: `game_state.set(Paused)` writes `some Paused`. -/
def check_level_up (s : PlayerStats) (g : Option GameState) :
    PlayerStats × Option GameState :=
  if s.xp_to_next_level ≤ s.xp then
    ({ xp := s.xp - s.xp_to_next_level
       level := s.level + 1
       xp_to_next_level := 3 * s.xp_to_next_level / 2 },
     some GameState.Paused)
  else
    (s, g)

/-- C1: whenever accumulated experience is at least the required experience
at the start of the check, the level increases by exactly 1, experience
decreases by exactly the pre-increment requirement, the new requirement is
floor(old requirement · 1.5), and the next simulation state is set to
Paused.  The tick applies `check_level_up` exactly once, so even when the
remaining experience still reaches the new requirement the level rises by
exactly one that tick (no multi-level-up loop). -/
theorem check_level_up_spec (s : PlayerStats) (g : Option GameState)
    (h : s.xp_to_next_level ≤ s.xp) :
    (check_level_up s g).1.level = s.level + 1 ∧
    (check_level_up s g).1.xp = s.xp - s.xp_to_next_level ∧
    (check_level_up s g).1.xp_to_next_level = 3 * s.xp_to_next_level / 2 ∧
    (check_level_up s g).2 = some GameState.Paused := by
  simp [check_level_up, h]

/-- Witness for C1 at a state whose remaining experience (200) still
exceeds the new requirement (150): one application still levels up once. -/
theorem check_level_up_spec_witness :
    (100 : ℕ) ≤ 300 ∧
    ((check_level_up ⟨300, 1, 100⟩ none).1.level = 1 + 1 ∧
     (check_level_up ⟨300, 1, 100⟩ none).1.xp = 300 - 100 ∧
     (check_level_up ⟨300, 1, 100⟩ none).1.xp_to_next_level = 3 * 100 / 2 ∧
     (check_level_up ⟨300, 1, 100⟩ none).2 = some GameState.Paused) :=
  ⟨by decide, check_level_up_spec ⟨300, 1, 100⟩ none (by decide)⟩

-- ------------------------------------------------------------------
-- Weapon configuration and upgrades (mod combat / mod ui)
-- ------------------------------------------------------------------

/-- The `WeaponStats` resource. -/
structure WeaponStats where
  multishot : ℕ
  chain_lightning : ℕ
  blade_count : ℕ
  fire_rate : ℚ
deriving DecidableEq, Repr

/-- The `Upgrade` component enum of the level-up menu buttons. -/
inductive Upgrade where
  | Multishot
  | ChainLightning
  | BladeCount
  | AttackSpeed
deriving DecidableEq, Repr

/-- The `match upgrade` arm of `ui::handle_upgrade_buttons`
(src/main.rs lines 889-894). -/
def applyUpgrade (u : Upgrade) (w : WeaponStats) : WeaponStats :=
  match u with
  | Upgrade.Multishot => { w with multishot := w.multishot + 1 }
  | Upgrade.ChainLightning => { w with chain_lightning := w.chain_lightning + 1 }
  | Upgrade.BladeCount => { w with blade_count := w.blade_count + 1 }
  | Upgrade.AttackSpeed => { w with fire_rate := w.fire_rate * (9 / 10) }

/-- Embedding of `ui::handle_upgrade_buttons` (src/main.rs lines 882-898).
`pressed` is the list of upgrade buttons whose interaction changed to
`Pressed` this tick; for each one the system applies the upgrade and sets
the next state to `Running`. -/
def handle_upgrade_buttons (pressed : List Upgrade) (w : WeaponStats)
    (g : Option GameState) : WeaponStats × Option GameState :=
  pressed.foldl (fun acc u => (applyUpgrade u acc.1, some GameState.Running)) (w, g)

theorem handle_upgrade_buttons_next_state (pressed : List Upgrade)
    (w : WeaponStats) (g : Option GameState) :
    (handle_upgrade_buttons pressed w g).2 = g ∨
    (handle_upgrade_buttons pressed w g).2 = some GameState.Running := by
  induction pressed generalizing w g with
  | nil => exact Or.inl rfl
  | cons u rest ih =>
    rcases ih (applyUpgrade u w) (some GameState.Running) with h | h
    · exact Or.inr h
    · exact Or.inr h

/-- C7: an upgrade-selection event processed while Paused mutates exactly
one field of the weapon configuration (multishot +1, or chain count +1, or
blade count +1, or fire interval ×0.9), leaves every other field
unchanged, and sets the next simulation state to Running; moreover the
button handler is the only state setter live in Paused and it can only
leave the next state untouched or set it to Running, so the upgrade
selection is the only exit from Paused. -/
theorem handle_upgrade_buttons_spec (w : WeaponStats) :
    (∀ u, handle_upgrade_buttons [u] w none =
      (applyUpgrade u w, some GameState.Running)) ∧
    ((applyUpgrade Upgrade.Multishot w).multishot = w.multishot + 1 ∧
     (applyUpgrade Upgrade.Multishot w).chain_lightning = w.chain_lightning ∧
     (applyUpgrade Upgrade.Multishot w).blade_count = w.blade_count ∧
     (applyUpgrade Upgrade.Multishot w).fire_rate = w.fire_rate) ∧
    ((applyUpgrade Upgrade.ChainLightning w).chain_lightning = w.chain_lightning + 1 ∧
     (applyUpgrade Upgrade.ChainLightning w).multishot = w.multishot ∧
     (applyUpgrade Upgrade.ChainLightning w).blade_count = w.blade_count ∧
     (applyUpgrade Upgrade.ChainLightning w).fire_rate = w.fire_rate) ∧
    ((applyUpgrade Upgrade.BladeCount w).blade_count = w.blade_count + 1 ∧
     (applyUpgrade Upgrade.BladeCount w).multishot = w.multishot ∧
     (applyUpgrade Upgrade.BladeCount w).chain_lightning = w.chain_lightning ∧
     (applyUpgrade Upgrade.BladeCount w).fire_rate = w.fire_rate) ∧
    ((applyUpgrade Upgrade.AttackSpeed w).fire_rate = w.fire_rate * (9 / 10) ∧
     (applyUpgrade Upgrade.AttackSpeed w).multishot = w.multishot ∧
     (applyUpgrade Upgrade.AttackSpeed w).chain_lightning = w.chain_lightning ∧
     (applyUpgrade Upgrade.AttackSpeed w).blade_count = w.blade_count) ∧
    (∀ ps v, (handle_upgrade_buttons ps v none).2 = none ∨
      (handle_upgrade_buttons ps v none).2 = some GameState.Running) := by
  refine ⟨fun u => rfl, ?_, ?_, ?_, ?_, fun ps v => handle_upgrade_buttons_next_state ps v none⟩
  all_goals simp [applyUpgrade]

-- ------------------------------------------------------------------
-- Orbiting blade ring (mod combat)
-- ------------------------------------------------------------------

/-- Blade angles in units of π radians: the source computes
`(i / n) * 2π` for `i` in `0..n`, embedded as the rational `2 * i / n`
(so a value `a` stands for the angle `a · π`). -/
def makeBladeRing (n : ℕ) : List ℚ :=
  (List.range n).map (fun i : ℕ => 2 * (i : ℚ) / (n : ℚ))

theorem makeBladeRing_length (n : ℕ) : (makeBladeRing n).length = n := by
  rw [makeBladeRing, List.length_map, List.length_range]

theorem makeBladeRing_get (n i : ℕ) (h : i < (makeBladeRing n).length) :
    (makeBladeRing n).get ⟨i, h⟩ = 2 * (i : ℚ) / n := by
  simp only [makeBladeRing, List.get_eq_getElem, List.getElem_map, List.getElem_range]

/-- Embedding of `combat::update_blade_count` (src/main.rs lines 519-553).
`stats_changed` is Bevy's `weapon_stats.is_changed()` change-detection
flag (set after any write to the `WeaponStats` resource), `orbit_exists`
is whether the `BladeOrbit` anchor query succeeds.  When triggered, every
existing `OrbitingBlade` is despawned and a fresh ring of
`blade_count` blades is spawned at angles `(i / n) * 2π`. -/
def update_blade_count (stats_changed orbit_exists : Bool) (blades : List ℚ)
    (blade_count : ℕ) : List ℚ :=
  if stats_changed then
    if orbit_exists then makeBladeRing blade_count else blades
  else blades

/-- Conjunction proved for claim C5: a triggered rebuild replaces the whole
ring (the result is `makeBladeRing n`, independent of the old blades), the
new ring has exactly `n` blades, consecutive blades differ by `2/n` in
units of π (that is, by 2π/n radians), and with no configuration change no
rebuild happens. -/
def BladeRebuildSpec (blades : List ℚ) (n : ℕ) : Prop :=
  update_blade_count true true blades n = makeBladeRing n ∧
  (update_blade_count true true blades n).length = n ∧
  (∀ i, ∀ h : i + 1 < (makeBladeRing n).length,
    (makeBladeRing n).get ⟨i + 1, h⟩ -
      (makeBladeRing n).get ⟨i, Nat.lt_of_succ_lt h⟩ = 2 / n) ∧
  (∀ bs c, update_blade_count false true bs c = bs)

/-- C5: for every change of the configuration's blade count from `m` to
`n` (`n ≠ m`), the rebuild — triggered by change detection on the
configuration, not a schedule — removes all `m` previous blades and
creates exactly `n` new blades spaced evenly by 2π/n radians. -/
theorem update_blade_count_spec (blades : List ℚ) (m n : ℕ)
    (hm : blades.length = m) (hnm : n ≠ m) :
    BladeRebuildSpec blades n := by
  refine ⟨rfl, makeBladeRing_length n, ?_, fun bs c => rfl⟩
  intro i h
  have hn : 0 < n := by
    have := h; rw [makeBladeRing_length] at this; omega
  have hnq : (n : ℚ) ≠ 0 := Nat.cast_ne_zero.mpr hn.ne'
  rw [makeBladeRing_get, makeBladeRing_get]
  push_cast
  field_simp
  ring

/-- Witness for C5: rebuilding from a 1-blade ring to 4 blades. -/
theorem update_blade_count_spec_witness :
    ([(0 : ℚ)].length = 1) ∧ (4 ≠ 1) ∧ BladeRebuildSpec [(0 : ℚ)] 4 :=
  ⟨rfl, by decide, update_blade_count_spec [(0 : ℚ)] 1 4 rfl (by decide)⟩

/-- C10 (implicit): the ring rebuild runs whenever ANY field of the weapon
configuration changes — `is_changed()` fires after a multishot or
attack-speed upgrade as well — and then still destroys every existing
blade and recreates exactly `blade_count` evenly spaced blades, so after
any tick in which the configuration changed the blade count in the ring
equals the configuration's blade count. -/
theorem update_blade_count_any_change (u : Upgrade) (w : WeaponStats)
    (blades : List ℚ) :
    update_blade_count true true blades (applyUpgrade u w).blade_count =
      makeBladeRing (applyUpgrade u w).blade_count ∧
    (update_blade_count true true blades (applyUpgrade u w).blade_count).length =
      (applyUpgrade u w).blade_count ∧
    (applyUpgrade Upgrade.Multishot w).blade_count = w.blade_count ∧
    (applyUpgrade Upgrade.AttackSpeed w).blade_count = w.blade_count ∧
    update_blade_count true true blades w.blade_count = makeBladeRing w.blade_count :=
  ⟨rfl, makeBladeRing_length _, rfl, rfl, rfl⟩

-- ------------------------------------------------------------------
-- Projectile and blade collision (mod combat)
-- ------------------------------------------------------------------

/-- A hostile or projectile as the collision systems see it: entity id and
translation.  Bevy commands are deferred, so both collision passes of a
tick observe the same entity lists even after queueing despawns. -/
abbrev EntityPos := ℕ × Vec2

/-- One iteration of the target scan inside the chain-lightning loop
(src/main.rs lines 430-438): skip already chained hostiles, keep the
strictly closest candidate found so far.  The accumulator carries the
current squared `min_dist` and the current `closest_new_target`. -/
def chainStep (chained : List ℕ) (p : Vec2) (acc : ℚ × Option EntityPos)
    (e : EntityPos) : ℚ × Option EntityPos :=
  if e.1 ∉ chained ∧ dist2 p e.2 < acc.1 then (dist2 p e.2, some e) else acc

/-- The whole target scan of one chain hop, starting from the maximum
chain distance 300 (squared) with no candidate. -/
def findChainTarget (es : List EntityPos) (chained : List ℕ) (lastPos : Vec2) :
    Option EntityPos :=
  (es.foldl (chainStep chained lastPos) (((300 : ℚ) ^ 2), none)).2

/-- The chain-lightning loop (src/main.rs lines 426-448): up to the
configured chain count, pick a target, despawn it, emit a reward at its
position, add it to `chained_targets`, and continue from its position;
stop at the first hop with no target.  The returned list holds the
chained victims in order. -/
def chainLightning (es : List EntityPos) : ℕ → List ℕ → Vec2 → List EntityPos
  | 0, _, _ => []
  | k + 1, chained, lastPos =>
    match findChainTarget es chained lastPos with
    | some t => t :: chainLightning es k (chained ++ [t.1]) t.2
    | none => []

/-- Decidable rendering of claim C2's precondition: at each of the `k`
hops an eligible hostile is strictly within the maximum chain distance of
the previous struck position. -/
def chainAvail (es : List EntityPos) : ℕ → List ℕ → Vec2 → Bool
  | 0, _, _ => true
  | k + 1, chained, lastPos =>
    match findChainTarget es chained lastPos with
    | some t => chainAvail es k (chained ++ [t.1]) t.2
    | none => false

/-- Last struck position after a chain: the initial position if the chain
is empty, else the position of the last chained victim. -/
def chainLast (p : Vec2) : List EntityPos → Vec2
  | [] => p
  | t :: rest => chainLast t.2 rest

/-- Correctness predicate for a chain: every hop hits a hostile from the
registry that is not yet chained, strictly within the maximum chain
distance of the previous struck position, and no eligible hostile is
strictly closer to that position. -/
def ChainValid (es : List EntityPos) : List ℕ → Vec2 → List EntityPos → Prop
  | _, _, [] => True
  | chained, p, t :: rest =>
    t ∈ es ∧ t.1 ∉ chained ∧ dist2 p t.2 < (300 : ℚ) ^ 2 ∧
    (∀ e ∈ es, e.1 ∉ chained → dist2 p t.2 ≤ dist2 p e.2) ∧
    ChainValid es (chained ++ [t.1]) t.2 rest

theorem chainStep_fold_spec (chained : List ℕ) (p : Vec2) :
    ∀ (es : List EntityPos) (m : ℚ) (b : Option EntityPos),
      (es.foldl (chainStep chained p) (m, b) = (m, b) ∨
        ∃ t, (es.foldl (chainStep chained p) (m, b)).2 = some t ∧ t ∈ es ∧
          t.1 ∉ chained ∧
          (es.foldl (chainStep chained p) (m, b)).1 = dist2 p t.2 ∧
          (es.foldl (chainStep chained p) (m, b)).1 < m) ∧
      (es.foldl (chainStep chained p) (m, b)).1 ≤ m ∧
      (∀ e ∈ es, e.1 ∉ chained →
        (es.foldl (chainStep chained p) (m, b)).1 ≤ dist2 p e.2) := by
  intro es
  induction es with
  | nil => exact fun m b => ⟨Or.inl rfl, le_refl m, by simp⟩
  | cons e rest ih =>
    intro m b
    by_cases hcond : e.1 ∉ chained ∧ dist2 p e.2 < m
    · have hstep : chainStep chained p (m, b) e = (dist2 p e.2, some e) := by
        simp [chainStep, hcond]
      have hfold : (e :: rest).foldl (chainStep chained p) (m, b) =
          rest.foldl (chainStep chained p) (dist2 p e.2, some e) := by
        rw [List.foldl_cons, hstep]
      obtain ⟨hA, hB, hC⟩ := ih (dist2 p e.2) (some e)
      refine ⟨?_, ?_, ?_⟩
      · right
        rcases hA with heq | ⟨t, ht2, htmem, htch, ht1, htlt⟩
        · exact ⟨e, by rw [hfold, heq], List.mem_cons_self e rest, hcond.1,
            by rw [hfold, heq], by rw [hfold, heq]; exact hcond.2⟩
        · exact ⟨t, by rw [hfold]; exact ht2, List.mem_cons_of_mem e htmem, htch,
            by rw [hfold]; exact ht1,
            by rw [hfold]; exact lt_trans htlt hcond.2⟩
      · rw [hfold]; exact le_trans hB (le_of_lt hcond.2)
      · intro e2 hmem hch
        rcases List.mem_cons.mp hmem with rfl | hmem2
        · rw [hfold]; exact hB
        · rw [hfold]; exact hC e2 hmem2 hch
    · have hstep : chainStep chained p (m, b) e = (m, b) := by
        simp only [chainStep, if_neg hcond]
      have hfold : (e :: rest).foldl (chainStep chained p) (m, b) =
          rest.foldl (chainStep chained p) (m, b) := by
        rw [List.foldl_cons, hstep]
      obtain ⟨hA, hB, hC⟩ := ih m b
      refine ⟨?_, ?_, ?_⟩
      · rcases hA with heq | ⟨t, ht2, htmem, htch, ht1, htlt⟩
        · exact Or.inl (by rw [hfold, heq])
        · exact Or.inr ⟨t, by rw [hfold]; exact ht2, List.mem_cons_of_mem e htmem,
            htch, by rw [hfold]; exact ht1, by rw [hfold]; exact htlt⟩
      · rw [hfold]; exact hB
      · intro e2 hmem hch
        rcases List.mem_cons.mp hmem with rfl | hmem2
        · rw [hfold]
          have hnotlt : ¬ dist2 p e2.2 < m := fun hlt => hcond ⟨hch, hlt⟩
          exact le_trans hB (le_of_not_lt hnotlt)
        · rw [hfold]; exact hC e2 hmem2 hch

theorem findChainTarget_some (es : List EntityPos) (chained : List ℕ)
    (p : Vec2) (t : EntityPos) (h : findChainTarget es chained p = some t) :
    t ∈ es ∧ t.1 ∉ chained ∧ dist2 p t.2 < (300 : ℚ) ^ 2 ∧
    ∀ e ∈ es, e.1 ∉ chained → dist2 p t.2 ≤ dist2 p e.2 := by
  obtain ⟨hA, hB, hC⟩ := chainStep_fold_spec chained p es ((300 : ℚ) ^ 2) none
  rcases hA with heq | ⟨t2, ht2, htmem, htch, ht1, htlt⟩
  · rw [findChainTarget, heq] at h; cases h
  · rw [findChainTarget] at h
    rw [ht2] at h
    cases h
    refine ⟨htmem, htch, ?_, ?_⟩
    · rw [← ht1]; exact htlt
    · intro e hmem hch
      have := hC e hmem hch
      rw [ht1] at this
      exact this

theorem findChainTarget_none (es : List EntityPos) (chained : List ℕ)
    (p : Vec2) (h : findChainTarget es chained p = none) :
    ∀ e ∈ es, e.1 ∉ chained → (300 : ℚ) ^ 2 ≤ dist2 p e.2 := by
  obtain ⟨hA, hB, hC⟩ := chainStep_fold_spec chained p es ((300 : ℚ) ^ 2) none
  rcases hA with heq | ⟨t2, ht2, _⟩
  · intro e hmem hch
    have := hC e hmem hch
    rw [heq] at this
    exact this
  · rw [findChainTarget, ht2] at h; cases h

theorem chainLightning_length_le (es : List EntityPos) :
    ∀ (k : ℕ) (chained : List ℕ) (p : Vec2),
      (chainLightning es k chained p).length ≤ k := by
  intro k
  induction k with
  | zero => intro chained p; simp [chainLightning]
  | succ k ih =>
    intro chained p
    cases h : findChainTarget es chained p with
    | none => simp [chainLightning, h]
    | some t =>
      have := ih (chained ++ [t.1]) t.2
      simp only [chainLightning, h, List.length_cons]
      omega

theorem chainLightning_valid (es : List EntityPos) :
    ∀ (k : ℕ) (chained : List ℕ) (p : Vec2),
      ChainValid es chained p (chainLightning es k chained p) := by
  intro k
  induction k with
  | zero => intro chained p; simp [chainLightning, ChainValid]
  | succ k ih =>
    intro chained p
    cases h : findChainTarget es chained p with
    | none => simp [chainLightning, h, ChainValid]
    | some t =>
      obtain ⟨hmem, hch, hlt, hmin⟩ := findChainTarget_some es chained p t h
      simp only [chainLightning, h, ChainValid]
      exact ⟨hmem, hch, hlt, hmin, ih (chained ++ [t.1]) t.2⟩

theorem chainLightning_avail (es : List EntityPos) :
    ∀ (k : ℕ) (chained : List ℕ) (p : Vec2),
      chainAvail es k chained p = true →
      (chainLightning es k chained p).length = k := by
  intro k
  induction k with
  | zero => intro chained p _; simp [chainLightning]
  | succ k ih =>
    intro chained p hav
    cases h : findChainTarget es chained p with
    | none => rw [chainAvail, h] at hav; cases hav
    | some t =>
      rw [chainAvail, h] at hav
      simp only [chainLightning, h, List.length_cons]
      rw [ih (chained ++ [t.1]) t.2 hav]

theorem chainLightning_stop (es : List EntityPos) :
    ∀ (k : ℕ) (chained : List ℕ) (p : Vec2),
      (chainLightning es k chained p).length < k →
      findChainTarget es (chained ++ (chainLightning es k chained p).map Prod.fst)
        (chainLast p (chainLightning es k chained p)) = none := by
  intro k
  induction k with
  | zero => intro chained p h; omega
  | succ k ih =>
    intro chained p hlen
    cases h : findChainTarget es chained p with
    | none => simpa [chainLightning, h, chainLast] using h
    | some t =>
      rw [chainLightning, h] at hlen ⊢
      simp only [List.length_cons] at hlen
      have hrec := ih (chained ++ [t.1]) t.2 (by omega)
      simpa [chainLast, List.append_assoc] using hrec

theorem chainLightning_fresh (es : List EntityPos) :
    ∀ (k : ℕ) (chained : List ℕ) (p : Vec2) (x : ℕ),
      x ∈ (chainLightning es k chained p).map Prod.fst → x ∉ chained := by
  intro k
  induction k with
  | zero => intro chained p x hx; simp [chainLightning] at hx
  | succ k ih =>
    intro chained p x hx
    cases h : findChainTarget es chained p with
    | none => rw [chainLightning, h] at hx; simp at hx
    | some t =>
      rw [chainLightning, h] at hx
      rcases List.mem_cons.mp hx with rfl | hx2
      · exact (findChainTarget_some es chained p t h).2.1
      · have := ih (chained ++ [t.1]) t.2 x hx2
        intro hc
        exact this (List.mem_append_left _ hc)

theorem chainLightning_nodup (es : List EntityPos) :
    ∀ (k : ℕ) (chained : List ℕ) (p : Vec2),
      ((chainLightning es k chained p).map Prod.fst).Nodup := by
  intro k
  induction k with
  | zero => intro chained p; simp [chainLightning]
  | succ k ih =>
    intro chained p
    cases h : findChainTarget es chained p with
    | none => simp [chainLightning, h]
    | some t =>
      rw [chainLightning, h]
      simp only [List.map_cons, List.nodup_cons]
      refine ⟨fun hmem => ?_, ih (chained ++ [t.1]) t.2⟩
      have := chainLightning_fresh es k (chained ++ [t.1]) t.2 t.1 hmem
      exact this (List.mem_append_right _ (List.mem_singleton.mpr rfl))

/-- First hostile of the scan strictly within the hit radius
(half the hostile size) of a projectile (src/main.rs lines 411-416). -/
def firstEnemyHit (p : Vec2) : List EntityPos → Option EntityPos
  | [] => none
  | e :: rest =>
    if dist2 p e.2 < (ENEMY_SIZE / 2) ^ 2 then some e else firstEnemyHit p rest

/-- The nested projectile/hostile scan of `combat::projectile_collision`:
the first projectile (in iteration order) for which some hostile is in
hit range, together with the first such hostile; the `return` in the
source makes the whole pass stop at this pair. -/
def findHit : List EntityPos → List EntityPos → Option (EntityPos × EntityPos)
  | [], _ => none
  | pr :: ps, es =>
    match firstEnemyHit pr.2 es with
    | some e => some (pr, e)
    | none => findHit ps es

/-- Commands and events queued by one tick of a collision pass: despawned
projectile ids, despawned hostile ids, and `XpDropEvent` positions (one
reward pickup is spawned per event, src/main.rs lines 600-615). -/
structure CollisionOutcome where
  despawnedProjectiles : List ℕ
  despawnedEnemies : List ℕ
  xpEvents : List Vec2
deriving DecidableEq, Repr

/-- Embedding of `combat::projectile_collision` (src/main.rs lines
403-454): resolve the first projectile hit, despawn both parties, emit a
reward at the hostile's position, run the chain-lightning pass when the
configured chain count is positive, then return from the whole system. -/
def projectile_collision (ps es : List EntityPos) (chain_count : ℕ) :
    CollisionOutcome :=
  match findHit ps es with
  | none => ⟨[], [], []⟩
  | some (pr, e) =>
    let ch := if 0 < chain_count then chainLightning es chain_count [e.1] e.2 else []
    ⟨[pr.1], e.1 :: ch.map Prod.fst, e.2 :: ch.map Prod.snd⟩

/-- Inner hostile loop of `combat::orbiting_blade_collision`
(src/main.rs lines 504-515) for a single blade at `b`: hostiles already in
the per-tick `hit_enemies` list are skipped, hostiles within half the
hostile size plus the blade reach 15 are despawned, rewarded and appended
to the list. -/
def bladeHits (b : Vec2) : List EntityPos → List EntityPos → List EntityPos
  | hit, [] => hit
  | hit, e :: rest =>
    if e.1 ∈ hit.map Prod.fst then bladeHits b hit rest
    else if dist2 b e.2 < (ENEMY_SIZE / 2 + 15) ^ 2 then bladeHits b (hit ++ [e]) rest
    else bladeHits b hit rest

/-- Embedding of `combat::orbiting_blade_collision` (src/main.rs lines
495-517): the `hit_enemies` list starts empty each tick and accumulates
over all blades; the result lists the hostiles despawned by the blade
pass (ids via `Prod.fst`) with their reward positions (via `Prod.snd`). -/
def orbiting_blade_collision (blades : List Vec2) (es : List EntityPos) :
    List EntityPos :=
  blades.foldl (fun hit b => bladeHits b hit es) []

theorem bladeHits_nodup (b : Vec2) :
    ∀ (es hit : List EntityPos), (hit.map Prod.fst).Nodup →
      ((bladeHits b hit es).map Prod.fst).Nodup := by
  intro es
  induction es with
  | nil => intro hit h; simpa [bladeHits] using h
  | cons e rest ih =>
    intro hit h
    by_cases hmem : e.1 ∈ hit.map Prod.fst
    · simpa [bladeHits, hmem] using ih hit h
    · by_cases hd : dist2 b e.2 < (ENEMY_SIZE / 2 + 15) ^ 2
      · have happ : ((hit ++ [e]).map Prod.fst).Nodup := by
          rw [List.map_append]
          refine List.Nodup.append h (List.nodup_singleton _) ?_
          intro a ha hb
          rw [List.map_singleton, List.mem_singleton] at hb
          subst hb
          exact hmem ha
        simpa [bladeHits, hmem, hd] using ih (hit ++ [e]) happ
      · simpa [bladeHits, hmem, hd] using ih hit h

theorem orbiting_blade_collision_nodup (blades : List Vec2)
    (es : List EntityPos) :
    ((orbiting_blade_collision blades es).map Prod.fst).Nodup := by
  have key : ∀ (bs : List Vec2) (hit : List EntityPos), (hit.map Prod.fst).Nodup →
      (((bs.foldl (fun h b => bladeHits b h es) hit)).map Prod.fst).Nodup := by
    intro bs
    induction bs with
    | nil => intro hit h; simpa using h
    | cons b rest ih =>
      intro hit h
      rw [List.foldl_cons]
      exact ih (bladeHits b hit es) (bladeHits_nodup b es hit h)
  exact key blades [] (by simp)

theorem projectile_collision_enemies_nodup (ps es : List EntityPos) (k : ℕ) :
    (projectile_collision ps es k).despawnedEnemies.Nodup := by
  rcases h : findHit ps es with _ | ⟨pr, e⟩
  · simp [projectile_collision, h]
  · by_cases hk : 0 < k
    · simp only [projectile_collision, h, if_pos hk, List.nodup_cons]
      refine ⟨fun hmem => ?_, chainLightning_nodup es k [e.1] e.2⟩
      have := chainLightning_fresh es k [e.1] e.2 e.1 hmem
      exact this (List.mem_singleton.mpr rfl)
    · simp [projectile_collision, h, if_neg hk]

/-- Conjunction proved for claim C2 about a resolved kill of hostile `e`:
the despawned hostiles are the initial victim followed by the chained
victims, one reward event is emitted per despawned hostile at its
position, the chain never exceeds the configured count, reaches exactly
the configured count when an eligible target is in range at every hop
(`chainAvail`), each hop hits the nearest not-yet-chained hostile within
the maximum chain distance (`ChainValid`), no hostile (the initial victim
included) is chained twice, and a shorter chain can only end because no
eligible target remained. -/
def ChainSpec (ps es : List EntityPos) (k : ℕ) (e : EntityPos) : Prop :=
  (projectile_collision ps es k).despawnedEnemies =
    e.1 :: (chainLightning es k [e.1] e.2).map Prod.fst ∧
  (projectile_collision ps es k).xpEvents =
    e.2 :: (chainLightning es k [e.1] e.2).map Prod.snd ∧
  (projectile_collision ps es k).xpEvents.length =
    (projectile_collision ps es k).despawnedEnemies.length ∧
  (chainLightning es k [e.1] e.2).length ≤ k ∧
  (chainAvail es k [e.1] e.2 = true →
    (projectile_collision ps es k).despawnedEnemies.length = k + 1 ∧
    (projectile_collision ps es k).xpEvents.length = k + 1) ∧
  ChainValid es [e.1] e.2 (chainLightning es k [e.1] e.2) ∧
  (projectile_collision ps es k).despawnedEnemies.Nodup ∧
  ((chainLightning es k [e.1] e.2).length < k →
    findChainTarget es ([e.1] ++ (chainLightning es k [e.1] e.2).map Prod.fst)
      (chainLast e.2 (chainLightning es k [e.1] e.2)) = none)

/-- C2: for every resolved projectile kill with configured chain count
k > 0, the chain pass picks at each hop the nearest not-yet-chained
hostile strictly within 300 units of the previous struck position, never
re-selects a chained hostile or the initial victim, stops early exactly
when no eligible target remains, and when an eligible target is reachable
at every hop it destroys exactly k additional hostiles — k + 1 in total —
emitting one reward pickup per destroyed hostile. -/
theorem projectile_chain_spec (ps es : List EntityPos) (k : ℕ)
    (pr e : EntityPos) (hk : 0 < k) (hhit : findHit ps es = some (pr, e)) :
    ChainSpec ps es k e := by
  have hout : projectile_collision ps es k =
      ⟨[pr.1], e.1 :: (chainLightning es k [e.1] e.2).map Prod.fst,
        e.2 :: (chainLightning es k [e.1] e.2).map Prod.snd⟩ := by
    simp [projectile_collision, hhit, if_pos hk]
  refine ⟨by rw [hout], by rw [hout], ?_, chainLightning_length_le es k [e.1] e.2,
    ?_, chainLightning_valid es k [e.1] e.2, projectile_collision_enemies_nodup ps es k, ?_⟩
  · rw [hout]; simp
  · intro hav
    have hlen := chainLightning_avail es k [e.1] e.2 hav
    rw [hout]
    simp [hlen]
  · intro hshort
    exact chainLightning_stop es k [e.1] e.2 hshort

/-- Witness for C2: one projectile kills the hostile at the origin and a
chain of count 2 hops to the hostiles at distance 50 and then 70. -/
theorem projectile_chain_spec_witness :
    0 < 2 ∧
    findHit [((10 : ℕ), (⟨0, 0⟩ : Vec2))]
        [((1 : ℕ), (⟨0, 0⟩ : Vec2)), (2, ⟨50, 0⟩), (3, ⟨120, 0⟩)] =
      some ((10, ⟨0, 0⟩), (1, ⟨0, 0⟩)) ∧
    ChainSpec [((10 : ℕ), (⟨0, 0⟩ : Vec2))]
      [((1 : ℕ), (⟨0, 0⟩ : Vec2)), (2, ⟨50, 0⟩), (3, ⟨120, 0⟩)] 2 (1, ⟨0, 0⟩) := by
  have hfind : findHit [((10 : ℕ), (⟨0, 0⟩ : Vec2))]
      [((1 : ℕ), (⟨0, 0⟩ : Vec2)), (2, ⟨50, 0⟩), (3, ⟨120, 0⟩)] =
      some ((10, ⟨0, 0⟩), (1, ⟨0, 0⟩)) := by
    norm_num [findHit, firstEnemyHit, dist2, ENEMY_SIZE]
  exact ⟨by norm_num, hfind,
    projectile_chain_spec [((10 : ℕ), (⟨0, 0⟩ : Vec2))]
      [((1 : ℕ), (⟨0, 0⟩ : Vec2)), (2, ⟨50, 0⟩), (3, ⟨120, 0⟩)] 2
      (10, ⟨0, 0⟩) (1, ⟨0, 0⟩) (by norm_num) hfind⟩

theorem firstEnemyHit_of_none (p : Vec2) (es : List EntityPos)
    (h : ∀ t ∈ es, ¬ dist2 p t.2 < (ENEMY_SIZE / 2) ^ 2) :
    firstEnemyHit p es = none := by
  induction es with
  | nil => rfl
  | cons e rest ih =>
    rw [firstEnemyHit, if_neg (h e (List.mem_cons_self e rest))]
    exact ih fun t ht => h t (List.mem_cons_of_mem e ht)

theorem firstEnemyHit_append (p : Vec2) (m1 m2 : List EntityPos)
    (e : EntityPos) (hskip : ∀ t ∈ m1, ¬ dist2 p t.2 < (ENEMY_SIZE / 2) ^ 2)
    (hhit : dist2 p e.2 < (ENEMY_SIZE / 2) ^ 2) :
    firstEnemyHit p (m1 ++ e :: m2) = some e := by
  induction m1 with
  | nil => rw [List.nil_append, firstEnemyHit, if_pos hhit]
  | cons t rest ih =>
    rw [List.cons_append, firstEnemyHit,
      if_neg (hskip t (List.mem_cons_self t rest))]
    exact ih fun q hq => hskip q (List.mem_cons_of_mem t hq)

theorem findHit_append (l1 l2 : List EntityPos) (pr : EntityPos)
    (es : List EntityPos) (e : EntityPos)
    (hquiet : ∀ q ∈ l1, firstEnemyHit q.2 es = none)
    (hfound : firstEnemyHit pr.2 es = some e) :
    findHit (l1 ++ pr :: l2) es = some (pr, e) := by
  induction l1 with
  | nil => rw [List.nil_append, findHit, hfound]
  | cons q rest ih =>
    rw [List.cons_append, findHit, hquiet q (List.mem_cons_self q rest)]
    exact ih fun q2 hq2 => hquiet q2 (List.mem_cons_of_mem q hq2)

theorem projectile_collision_proj_le (ps es : List EntityPos) (k : ℕ) :
    (projectile_collision ps es k).despawnedProjectiles.length ≤ 1 := by
  rcases h : findHit ps es with _ | ⟨pr, e⟩
  · simp [projectile_collision, h]
  · simp [projectile_collision, h]

/-- Conjunction proved for claim C3: the pass resolves exactly the first
in-range projectile/hostile pair, despawning that one projectile and that
hostile (plus its chain, empty when the chain count is 0), emitting one
reward per despawned hostile at its position — and, whatever the inputs,
at most one projectile is ever despawned by a single tick's pass. -/
def FirstHitSpec (ps es : List EntityPos) (k : ℕ) (pr e : EntityPos) : Prop :=
  findHit ps es = some (pr, e) ∧
  (projectile_collision ps es k).despawnedProjectiles = [pr.1] ∧
  (projectile_collision ps es k).despawnedEnemies =
    e.1 :: (if 0 < k then chainLightning es k [e.1] e.2 else []).map Prod.fst ∧
  (projectile_collision ps es k).xpEvents =
    e.2 :: (if 0 < k then chainLightning es k [e.1] e.2 else []).map Prod.snd ∧
  (∀ ps2 es2 k2, (projectile_collision ps2 es2 k2).despawnedProjectiles.length ≤ 1)

/-- C3: in one tick's pass the hostiles are scanned per projectile until
the first one strictly within half the hostile size; on that hit the
projectile and the hostile are destroyed, one reward pickup is emitted at
the hostile's position, and the whole pass returns — at most one
projectile-initiated kill (plus its chain) per tick, no matter how many
projectiles and hostiles are in hit range (the lists beyond the first hit
are unconstrained). -/
theorem projectile_collision_first_hit (l1 l2 m1 m2 : List EntityPos)
    (pr e : EntityPos) (k : ℕ) (ps es : List EntityPos)
    (hps : ps = l1 ++ pr :: l2) (hes : es = m1 ++ e :: m2)
    (hquiet : ∀ q ∈ l1, ∀ t ∈ es, ¬ dist2 q.2 t.2 < (ENEMY_SIZE / 2) ^ 2)
    (hskip : ∀ t ∈ m1, ¬ dist2 pr.2 t.2 < (ENEMY_SIZE / 2) ^ 2)
    (hhit : dist2 pr.2 e.2 < (ENEMY_SIZE / 2) ^ 2) :
    FirstHitSpec ps es k pr e := by
  have hfound : firstEnemyHit pr.2 es = some e := by
    rw [hes]; exact firstEnemyHit_append pr.2 m1 m2 e hskip hhit
  have hfind : findHit ps es = some (pr, e) := by
    rw [hps]
    exact findHit_append l1 l2 pr es e
      (fun q hq => firstEnemyHit_of_none q.2 es (hquiet q hq)) hfound
  refine ⟨hfind, ?_, ?_, ?_, projectile_collision_proj_le⟩
  · simp [projectile_collision, hfind]
  · simp [projectile_collision, hfind]
  · simp [projectile_collision, hfind]

/-- Witness for C3: the second projectile hits the second hostile; an
earlier hostile and an earlier projectile are out of range, while a later
projectile and a later hostile are also in range and stay untouched. -/
theorem projectile_collision_first_hit_witness :
    ([((7 : ℕ), (⟨500, 500⟩ : Vec2)), (10, ⟨0, 0⟩), (11, ⟨0, 0⟩)] =
      [((7 : ℕ), (⟨500, 500⟩ : Vec2))] ++ (10, (⟨0, 0⟩ : Vec2)) :: [((11 : ℕ), (⟨0, 0⟩ : Vec2))]) ∧
    ([((5 : ℕ), (⟨400, 0⟩ : Vec2)), (1, ⟨3, 4⟩), (2, ⟨1, 0⟩)] =
      [((5 : ℕ), (⟨400, 0⟩ : Vec2))] ++ (1, (⟨3, 4⟩ : Vec2)) :: [((2 : ℕ), (⟨1, 0⟩ : Vec2))]) ∧
    (∀ q ∈ [((7 : ℕ), (⟨500, 500⟩ : Vec2))],
      ∀ t ∈ [((5 : ℕ), (⟨400, 0⟩ : Vec2)), (1, ⟨3, 4⟩), (2, ⟨1, 0⟩)],
        ¬ dist2 q.2 t.2 < (ENEMY_SIZE / 2) ^ 2) ∧
    (∀ t ∈ [((5 : ℕ), (⟨400, 0⟩ : Vec2))],
      ¬ dist2 (⟨0, 0⟩ : Vec2) t.2 < (ENEMY_SIZE / 2) ^ 2) ∧
    dist2 (⟨0, 0⟩ : Vec2) (⟨3, 4⟩ : Vec2) < (ENEMY_SIZE / 2) ^ 2 ∧
    FirstHitSpec [((7 : ℕ), (⟨500, 500⟩ : Vec2)), (10, ⟨0, 0⟩), (11, ⟨0, 0⟩)]
      [((5 : ℕ), (⟨400, 0⟩ : Vec2)), (1, ⟨3, 4⟩), (2, ⟨1, 0⟩)] 0
      (10, ⟨0, 0⟩) (1, ⟨3, 4⟩) := by
  refine ⟨rfl, rfl, ?_, ?_, ?_, ?_⟩
  · norm_num [dist2, ENEMY_SIZE]
  · norm_num [dist2, ENEMY_SIZE]
  · norm_num [dist2, ENEMY_SIZE]
  · exact projectile_collision_first_hit
      [((7 : ℕ), (⟨500, 500⟩ : Vec2))] [((11 : ℕ), (⟨0, 0⟩ : Vec2))]
      [((5 : ℕ), (⟨400, 0⟩ : Vec2))] [((2 : ℕ), (⟨1, 0⟩ : Vec2))]
      (10, ⟨0, 0⟩) (1, ⟨3, 4⟩) 0 _ _ rfl rfl
      (by norm_num [dist2, ENEMY_SIZE]) (by norm_num [dist2, ENEMY_SIZE])
      (by norm_num [dist2, ENEMY_SIZE])

/-- C4 (as amended): within one tick, each collision pass on its own never
despawns the same hostile twice — the projectile pass by its
`chained_targets` list, the blade pass by its per-tick `hit_enemies` list. -/
theorem collision_pass_dedup (ps es : List EntityPos) (k : ℕ)
    (blades : List Vec2) :
    (projectile_collision ps es k).despawnedEnemies.Nodup ∧
    ((orbiting_blade_collision blades es).map Prod.fst).Nodup :=
  ⟨projectile_collision_enemies_nodup ps es k,
    orbiting_blade_collision_nodup blades es⟩

/-- Counterexample to C4 as stated: a hostile at the origin that is in hit
range of a projectile and of a blade in the same tick is despawned by the
projectile pass and again by the blade pass — the combined per-tick
despawn list contains its id twice, so there is no cross-pass
deduplication. -/
theorem collision_cross_pass_cex :
    ¬ (((projectile_collision [((5 : ℕ), (⟨0, 0⟩ : Vec2))]
          [((0 : ℕ), (⟨0, 0⟩ : Vec2))] 0).despawnedEnemies ++
        (orbiting_blade_collision [(⟨0, 0⟩ : Vec2)]
          [((0 : ℕ), (⟨0, 0⟩ : Vec2))]).map Prod.fst).Nodup) := by
  norm_num [projectile_collision, findHit, firstEnemyHit, orbiting_blade_collision,
    bladeHits, dist2, ENEMY_SIZE]

-- ------------------------------------------------------------------
-- Hostile steering (mod enemy)
-- ------------------------------------------------------------------

/-- Per-entity push magnitude of the separation steering: the
`separation_force` of src/main.rs line 265 scaled by the hostile speed and
the tick delta and halved (lines 267-268). -/
def sepPush (d dt : ℚ) : ℚ :=
  (ENEMY_SIZE * 1.5 - d) / (ENEMY_SIZE * 1.5) * ENEMY_SPEED * dt / 2

/-- Embedding of one pair iteration of `enemy::boid_steering`
(src/main.rs lines 254-271); with exactly two hostiles the whole pass is
this single update.  `d` is the Euclidean distance between the two
hostiles (the theorems certify it by `0 ≤ d` and `d * d = dist2 t1 t2`),
so the source's `(t1 - t2).normalize()` is `(1 / d) • (t1 - t2)` and the
guard `distance < threshold && distance > 0` is the `if` below. -/
def boid_steering (t1 t2 : Vec2) (d dt : ℚ) : Vec2 × Vec2 :=
  if d < ENEMY_SIZE * 1.5 ∧ 0 < d then
    (t1 + (sepPush d dt / d) • (t1 - t2), t2 - (sepPush d dt / d) • (t1 - t2))
  else (t1, t2)

/-- Conjunction proved for claim C6: both hostiles move along the line
connecting them, in opposite senses, each by the magnitude `sepPush d dt`
(stated through squared displacements); twice the per-entity push is the
single-entity push of the claim; and the squared distance of the pair
strictly increases. -/
def BoidSepSpec (t1 t2 : Vec2) (d dt : ℚ) : Prop :=
  (boid_steering t1 t2 d dt).1 = t1 + (sepPush d dt / d) • (t1 - t2) ∧
  (boid_steering t1 t2 d dt).2 = t2 - (sepPush d dt / d) • (t1 - t2) ∧
  dist2 (boid_steering t1 t2 d dt).1 t1 = sepPush d dt ^ 2 ∧
  dist2 (boid_steering t1 t2 d dt).2 t2 = sepPush d dt ^ 2 ∧
  2 * sepPush d dt =
    (ENEMY_SIZE * 1.5 - d) / (ENEMY_SIZE * 1.5) * ENEMY_SPEED * dt ∧
  dist2 t1 t2 < dist2 (boid_steering t1 t2 d dt).1 (boid_steering t1 t2 d dt).2

/-- C6: for a pair of hostiles at distance `0 < d < 30` (the separation
threshold `1.5 ×` hostile size), one separation step pushes the two apart
along the connecting line, each by
`(threshold − d) / threshold × speed × dt / 2`, the pair's combined push
equalling a single entity's push, and their distance strictly increases. -/
theorem boid_steering_spec (t1 t2 : Vec2) (d dt : ℚ)
    (hd2 : d * d = dist2 t1 t2) (hd0 : 0 < d) (hlt : d < ENEMY_SIZE * 1.5)
    (hdt : 0 < dt) : BoidSepSpec t1 t2 d dt := by
  have hcond : d < ENEMY_SIZE * 1.5 ∧ 0 < d := ⟨hlt, hd0⟩
  have hfst : (boid_steering t1 t2 d dt).1 = t1 + (sepPush d dt / d) • (t1 - t2) := by
    rw [boid_steering, if_pos hcond]
  have hsnd : (boid_steering t1 t2 d dt).2 = t2 - (sepPush d dt / d) • (t1 - t2) := by
    rw [boid_steering, if_pos hcond]
  have hdne : d ≠ 0 := hd0.ne'
  have hd30 : d < 30 := by
    have : ENEMY_SIZE * 1.5 = 30 := by norm_num [ENEMY_SIZE]
    linarith [hlt, this.symm.le]
  have hc : 0 < sepPush d dt := by
    have h30 : (0 : ℚ) < 30 - d := by linarith
    have := mul_pos h30 hdt
    rw [sepPush]
    norm_num [ENEMY_SIZE, ENEMY_SPEED]
    nlinarith
  have hsq1 : dist2 (t1 + (sepPush d dt / d) • (t1 - t2)) t1 =
      (sepPush d dt / d) ^ 2 * dist2 t1 t2 := by
    simp only [dist2, Vec2.add_x, Vec2.add_y, Vec2.sub_x, Vec2.sub_y,
      Vec2.smul_x, Vec2.smul_y]
    ring
  have hsq2 : dist2 (t2 - (sepPush d dt / d) • (t1 - t2)) t2 =
      (sepPush d dt / d) ^ 2 * dist2 t1 t2 := by
    simp only [dist2, Vec2.add_x, Vec2.add_y, Vec2.sub_x, Vec2.sub_y,
      Vec2.smul_x, Vec2.smul_y]
    ring
  have hmag : (sepPush d dt / d) ^ 2 * dist2 t1 t2 = sepPush d dt ^ 2 := by
    rw [← hd2]
    field_simp
    ring
  refine ⟨hfst, hsnd, by rw [hfst, hsq1, hmag], by rw [hsnd, hsq2, hmag],
    by rw [sepPush]; ring, ?_⟩
  rw [hfst, hsnd]
  have hexp : dist2 (t1 + (sepPush d dt / d) • (t1 - t2))
      (t2 - (sepPush d dt / d) • (t1 - t2)) =
      (1 + 2 * (sepPush d dt / d)) ^ 2 * dist2 t1 t2 := by
    simp only [dist2, Vec2.add_x, Vec2.add_y, Vec2.sub_x, Vec2.sub_y,
      Vec2.smul_x, Vec2.smul_y]
    ring
  rw [hexp]
  have hq : 0 < sepPush d dt / d := div_pos hc hd0
  have hD : 0 < dist2 t1 t2 := by rw [← hd2]; exact mul_pos hd0 hd0
  nlinarith [mul_pos hq hD, mul_pos (mul_pos hq hq) hD]

/-- Witness for C6: the scenario of the claim, two hostiles 5 units apart
(below the 30-unit separation threshold) and a tick of 0.01 s. -/
theorem boid_steering_spec_witness :
    ((5 : ℚ) * 5 = dist2 ⟨0, 0⟩ ⟨5, 0⟩) ∧ ((0 : ℚ) < 5) ∧
    ((5 : ℚ) < ENEMY_SIZE * 1.5) ∧ ((0 : ℚ) < 1 / 100) ∧
    BoidSepSpec ⟨0, 0⟩ ⟨5, 0⟩ 5 (1 / 100) := by
  have h1 : (5 : ℚ) * 5 = dist2 ⟨0, 0⟩ ⟨5, 0⟩ := by norm_num [dist2]
  have h2 : (5 : ℚ) < ENEMY_SIZE * 1.5 := by norm_num [ENEMY_SIZE]
  exact ⟨h1, by norm_num, h2, by norm_num,
    boid_steering_spec ⟨0, 0⟩ ⟨5, 0⟩ 5 (1 / 100) h1 (by norm_num) h2 (by norm_num)⟩

/-- Bevy's `Vec3::normalize_or_zero`: the zero vector when the length is
zero, otherwise the vector divided by its length `d` (certified by the
theorems as `0 ≤ d` and `d * d = norm2 v`). -/
def normalize_or_zero (v : Vec2) (d : ℚ) : Vec2 :=
  if d = 0 then ⟨0, 0⟩ else (1 / d) • v

/-- Embedding of the per-hostile body of `enemy::enemy_movement`
(src/main.rs lines 241-252): move toward the controlled entity at the
hostile speed along the normalize-or-zero direction. -/
def enemy_movement (playerPos pos : Vec2) (d dt : ℚ) : Vec2 :=
  pos + (ENEMY_SPEED * dt) • normalize_or_zero (playerPos - pos) d

/-- Conjunction proved for claim C9: at coincident positions the direction
is the zero vector and the hostile does not move (no fault); at distinct
positions the direction is the unit vector from the hostile toward the
controlled entity. -/
def EnemySeekSpec (playerPos pos : Vec2) (d dt : ℚ) : Prop :=
  (pos = playerPos →
    normalize_or_zero (playerPos - pos) d = ⟨0, 0⟩ ∧
    enemy_movement playerPos pos d dt = pos) ∧
  (pos ≠ playerPos →
    0 < d ∧
    normalize_or_zero (playerPos - pos) d = (1 / d) • (playerPos - pos) ∧
    norm2 (normalize_or_zero (playerPos - pos) d) = 1)

/-- C9: a hostile coinciding with the controlled entity gets a zero
direction and zero movement that tick — never a division fault — and a
hostile at a distinct position gets the unit vector toward the controlled
entity. -/
theorem enemy_movement_spec (playerPos pos : Vec2) (d dt : ℚ)
    (hd2 : d * d = dist2 playerPos pos) (hd0 : 0 ≤ d) :
    EnemySeekSpec playerPos pos d dt := by
  constructor
  · intro heq
    have hdist : dist2 playerPos pos = 0 := by
      rw [dist2_eq_zero_iff]; exact heq.symm
    have hdz : d = 0 := by
      have : d * d = 0 := by rw [hd2, hdist]
      exact mul_self_eq_zero.mp this
    have hn : normalize_or_zero (playerPos - pos) d = ⟨0, 0⟩ := by
      rw [normalize_or_zero, if_pos hdz]
    refine ⟨hn, ?_⟩
    rw [enemy_movement, hn]
    refine Vec2.ext_xy _ _ ?_ ?_ <;> simp
  · intro hne
    have hdist : dist2 playerPos pos ≠ 0 := by
      rw [Ne, dist2_eq_zero_iff]
      exact fun h => hne h.symm
    have hdz : d ≠ 0 := by
      intro h
      apply hdist
      rw [← hd2, h, mul_zero]
    have hdpos : 0 < d := lt_of_le_of_ne hd0 (Ne.symm hdz)
    have hn : normalize_or_zero (playerPos - pos) d = (1 / d) • (playerPos - pos) := by
      rw [normalize_or_zero, if_neg hdz]
    refine ⟨hdpos, hn, ?_⟩
    rw [hn]
    have hv : norm2 ((1 / d) • (playerPos - pos)) =
        (1 / d) ^ 2 * dist2 playerPos pos := by
      rw [← norm2_sub_eq_dist2]
      simp only [norm2, Vec2.smul_x, Vec2.smul_y]
      ring
    rw [hv, ← hd2]
    field_simp
    ring

/-- Witness for C9 at distinct positions (hostile at (3,4), controlled
entity at the origin, distance 5); the coincident branch of
`EnemySeekSpec` is vacuous there and exercised by the same theorem at any
coincident pair. -/
theorem enemy_movement_spec_witness :
    ((5 : ℚ) * 5 = dist2 ⟨0, 0⟩ ⟨3, 4⟩) ∧ ((0 : ℚ) ≤ 5) ∧
    EnemySeekSpec ⟨0, 0⟩ ⟨3, 4⟩ 5 1 ∧
    ((0 : ℚ) * 0 = dist2 ⟨7, 7⟩ ⟨7, 7⟩) ∧
    EnemySeekSpec ⟨7, 7⟩ ⟨7, 7⟩ 0 1 := by
  have h1 : (5 : ℚ) * 5 = dist2 ⟨0, 0⟩ ⟨3, 4⟩ := by norm_num [dist2]
  have h2 : (0 : ℚ) * 0 = dist2 ⟨7, 7⟩ ⟨7, 7⟩ := by norm_num [dist2]
  exact ⟨h1, by norm_num, enemy_movement_spec ⟨0, 0⟩ ⟨3, 4⟩ 5 1 h1 (by norm_num),
    h2, enemy_movement_spec ⟨7, 7⟩ ⟨7, 7⟩ 0 1 h2 le_rfl⟩

-- ------------------------------------------------------------------
-- Trickle spawner (mod enemy)
-- ------------------------------------------------------------------

/-- A Bevy `Timer` as the spawner uses it: accumulated elapsed time and
the configured duration. -/
structure Timer where
  elapsed : ℚ
  duration : ℚ
deriving DecidableEq, Repr

/-- Bevy's `Timer::tick` for a repeating timer, returning the advanced
timer and `just_finished()`: the elapsed time grows by the delta; when it
reaches the duration the timer reports finished once for the tick and
wraps the elapsed time modulo the duration. -/
def Timer.tickRepeating (t : Timer) (delta : ℚ) : Timer × Bool :=
  let e := t.elapsed + delta
  if t.duration ≤ e then
    (⟨e - t.duration * ((⌊e / t.duration⌋ : ℤ) : ℚ), t.duration⟩, true)
  else
    (⟨e, t.duration⟩, false)

/-- Embedding of `enemy::enemy_spawner` (src/main.rs lines 211-239): tick
the 0.1 s repeating spawn timer; when it just finished and the controlled
entity exists, spawn one hostile at the spawn radius 1000 from the
controlled entity's position.  The uniformly random angle is injected as
the unit vector `dir` (standing for `(cos angle, sin angle)`). -/
def enemy_spawner (t : Timer) (delta : ℚ) (player : Option Vec2)
    (dir : Vec2) : Timer × List Vec2 :=
  let r := t.tickRepeating delta
  if r.2 then
    match player with
    | some p => (r.1, [p + (1000 : ℚ) • dir])
    | none => (r.1, [])
  else (r.1, [])

/-- Iterated spawner over a sequence of tick deltas, counting the ticks in
which the spawn timer just finished — each such tick spawns exactly one
hostile while the controlled entity exists. -/
def runSpawner : Timer → List ℚ → Timer × ℕ
  | t, [] => (t, 0)
  | t, delta :: rest =>
    let r := t.tickRepeating delta
    let s := runSpawner r.1 rest
    (s.1, (if r.2 then 1 else 0) + s.2)

theorem div_spawn_interval (x : ℚ) : x / ENEMY_SPAWN_INTERVAL = x * 10 := by
  rw [ENEMY_SPAWN_INTERVAL, div_eq_mul_inv]
  norm_num

theorem runSpawner_count :
    ∀ (deltas : List ℚ) (r : ℚ), 0 ≤ r → r < ENEMY_SPAWN_INTERVAL →
      (∀ d ∈ deltas, 0 ≤ d ∧ d ≤ ENEMY_SPAWN_INTERVAL) →
      ((runSpawner ⟨r, ENEMY_SPAWN_INTERVAL⟩ deltas).2 : ℤ) =
        ⌊(r + deltas.sum) / ENEMY_SPAWN_INTERVAL⌋ := by
  intro deltas
  induction deltas with
  | nil =>
    intro r hr0 hr1 _
    rw [ENEMY_SPAWN_INTERVAL] at hr1
    have : ⌊(r + ([] : List ℚ).sum) / ENEMY_SPAWN_INTERVAL⌋ = 0 := by
      rw [div_spawn_interval, Int.floor_eq_zero_iff]
      constructor
      · simp; positivity
      · simp; linarith
    rw [this]
    simp [runSpawner]
  | cons dl rest ih =>
    intro r hr0 hr1 hall
    obtain ⟨hd0, hd1⟩ := hall dl (List.mem_cons_self dl rest)
    have hrest : ∀ d ∈ rest, 0 ≤ d ∧ d ≤ ENEMY_SPAWN_INTERVAL :=
      fun d hd => hall d (List.mem_cons_of_mem dl hd)
    rw [ENEMY_SPAWN_INTERVAL] at hr1 hd1
    by_cases hfire : ENEMY_SPAWN_INTERVAL ≤ r + dl
    · have hfire10 : (1 : ℚ) / 10 ≤ r + dl := by
        rw [ENEMY_SPAWN_INTERVAL] at hfire; exact hfire
      have hfloor1 : ⌊(r + dl) / ENEMY_SPAWN_INTERVAL⌋ = 1 := by
        rw [div_spawn_interval, Int.floor_eq_iff]
        push_cast
        constructor <;> linarith
      have htick : Timer.tickRepeating ⟨r, ENEMY_SPAWN_INTERVAL⟩ dl =
          (⟨r + dl - ENEMY_SPAWN_INTERVAL, ENEMY_SPAWN_INTERVAL⟩, true) := by
        simp only [Timer.tickRepeating, if_pos hfire, hfloor1]
        norm_num
      have hr2a : (0 : ℚ) ≤ r + dl - ENEMY_SPAWN_INTERVAL := by
        rw [ENEMY_SPAWN_INTERVAL]; linarith
      have hr2b : r + dl - ENEMY_SPAWN_INTERVAL < ENEMY_SPAWN_INTERVAL := by
        rw [ENEMY_SPAWN_INTERVAL]; linarith
      have hrec := ih (r + dl - ENEMY_SPAWN_INTERVAL) hr2a hr2b hrest
      have hshift : (r + dl - ENEMY_SPAWN_INTERVAL + rest.sum) / ENEMY_SPAWN_INTERVAL =
          (r + (dl :: rest).sum) / ENEMY_SPAWN_INTERVAL - 1 := by
        rw [div_spawn_interval, div_spawn_interval, List.sum_cons, ENEMY_SPAWN_INTERVAL]
        ring
      rw [hshift] at hrec
      rw [Int.floor_sub_one] at hrec
      simp only [runSpawner, htick, if_pos]
      push_cast
      omega
    · have htick : Timer.tickRepeating ⟨r, ENEMY_SPAWN_INTERVAL⟩ dl =
          (⟨r + dl, ENEMY_SPAWN_INTERVAL⟩, false) := by
        simp only [Timer.tickRepeating, if_neg hfire]
      have hfire10 : ¬ (1 : ℚ) / 10 ≤ r + dl := by
        rw [ENEMY_SPAWN_INTERVAL] at hfire; exact hfire
      have hr2a : (0 : ℚ) ≤ r + dl := by linarith
      have hr2b : r + dl < ENEMY_SPAWN_INTERVAL := by
        rw [ENEMY_SPAWN_INTERVAL]; linarith
      have hrec := ih (r + dl) hr2a hr2b hrest
      have hshift : (r + dl + rest.sum) / ENEMY_SPAWN_INTERVAL =
          (r + (dl :: rest).sum) / ENEMY_SPAWN_INTERVAL := by
        rw [List.sum_cons]; ring_nf
      rw [hshift] at hrec
      simp only [runSpawner, htick]
      simpa using hrec

/-- C8 (as amended): when every tick's delta is at most the spawn interval
0.1 s, the trickle spawner creates exactly `⌊T / 0.1⌋` hostiles over
elapsed time `T` while the controlled entity exists (the repeating timer
carries the remainder across ticks); every spawned hostile lies at
distance exactly 1000 from the controlled entity's position at spawn
time; and without a controlled entity no hostile is spawned. -/
theorem enemy_spawner_spec (deltas : List ℚ)
    (hall : ∀ d ∈ deltas, 0 ≤ d ∧ d ≤ ENEMY_SPAWN_INTERVAL)
    (t : Timer) (delta : ℚ) (p dir : Vec2) (hdir : norm2 dir = 1) :
    ((runSpawner ⟨0, ENEMY_SPAWN_INTERVAL⟩ deltas).2 : ℤ) =
      ⌊deltas.sum / ENEMY_SPAWN_INTERVAL⌋ ∧
    (∀ q ∈ (enemy_spawner t delta (some p) dir).2, dist2 q p = 1000 ^ 2) ∧
    (enemy_spawner t delta none dir).2 = [] := by
  refine ⟨?_, ?_, ?_⟩
  · have h := runSpawner_count deltas 0 le_rfl (by rw [ENEMY_SPAWN_INTERVAL]; norm_num) hall
    simpa using h
  · intro q hq
    rcases hfi : (t.tickRepeating delta).2 with _ | _
    · simp [enemy_spawner, hfi] at hq
    · simp only [enemy_spawner, hfi, if_pos, List.mem_singleton] at hq
      subst hq
      simp only [dist2, Vec2.add_x, Vec2.add_y, Vec2.smul_x, Vec2.smul_y]
      rw [norm2] at hdir
      linear_combination (1000000 : ℚ) * hdir
  · rcases hfi : (t.tickRepeating delta).2 with _ | _ <;> simp [enemy_spawner, hfi]

/-- Witness for C8 (amended): three ticks of 0.05 s give elapsed time
0.15 s and exactly `⌊0.15 / 0.1⌋ = 1` spawned hostile; the injected
random direction (3/5, 4/5) is a unit vector. -/
theorem enemy_spawner_spec_witness :
    (∀ d ∈ [(1 : ℚ) / 20, 1 / 20, 1 / 20], 0 ≤ d ∧ d ≤ ENEMY_SPAWN_INTERVAL) ∧
    norm2 ⟨3 / 5, 4 / 5⟩ = 1 ∧
    (((runSpawner ⟨0, ENEMY_SPAWN_INTERVAL⟩ [(1 : ℚ) / 20, 1 / 20, 1 / 20]).2 : ℤ) =
      ⌊([(1 : ℚ) / 20, 1 / 20, 1 / 20].sum) / ENEMY_SPAWN_INTERVAL⌋ ∧
     (∀ q ∈ (enemy_spawner ⟨0, ENEMY_SPAWN_INTERVAL⟩ (1 / 10) (some ⟨0, 0⟩)
        ⟨3 / 5, 4 / 5⟩).2, dist2 q ⟨0, 0⟩ = 1000 ^ 2) ∧
     (enemy_spawner ⟨0, ENEMY_SPAWN_INTERVAL⟩ (1 / 10) none ⟨3 / 5, 4 / 5⟩).2 = []) := by
  have h1 : ∀ d ∈ [(1 : ℚ) / 20, 1 / 20, 1 / 20], 0 ≤ d ∧ d ≤ ENEMY_SPAWN_INTERVAL := by
    norm_num [ENEMY_SPAWN_INTERVAL]
  have h2 : norm2 (⟨3 / 5, 4 / 5⟩ : Vec2) = 1 := by norm_num [norm2]
  exact ⟨h1, h2,
    enemy_spawner_spec [(1 : ℚ) / 20, 1 / 20, 1 / 20] h1
      ⟨0, ENEMY_SPAWN_INTERVAL⟩ (1 / 10) ⟨0, 0⟩ ⟨3 / 5, 4 / 5⟩ h2⟩

/-- Counterexample to C8 as stated: a single tick whose delta 0.2 s spans
two spawn intervals still spawns only one hostile (`just_finished` is
reported once per tick), while `⌊0.2 / 0.1⌋ = 2` — so the per-interval
count does depend on how elapsed time is partitioned into ticks. -/
theorem enemy_spawner_partition_cex :
    (runSpawner ⟨0, ENEMY_SPAWN_INTERVAL⟩ [1 / 5]).2 = 1 ∧
    ⌊((1 : ℚ) / 5) / ENEMY_SPAWN_INTERVAL⌋ = 2 := by
  constructor
  · have htick : Timer.tickRepeating ⟨0, ENEMY_SPAWN_INTERVAL⟩ (1 / 5) =
        (⟨0 + 1 / 5 - ENEMY_SPAWN_INTERVAL *
          ((⌊(0 + 1 / 5) / ENEMY_SPAWN_INTERVAL⌋ : ℤ) : ℚ), ENEMY_SPAWN_INTERVAL⟩, true) := by
      simp only [Timer.tickRepeating, if_pos]
      rw [ENEMY_SPAWN_INTERVAL]
      norm_num
    simp only [runSpawner, htick]
    norm_num
  · rw [div_spawn_interval]
    norm_num

end SwarmHeaven
